import Mathlib

/-!
Verification of `turf-line-intersect` (packages/turf-line-intersect/index.js).

Coordinates are modelled as rationals (the source uses IEEE doubles; the
algebraic structure of every branch — the `denom == 0` test, the
`uA, uB ∈ [0,1]` range checks, the bounding-box comparisons — is identical
over an ordered field, which ℚ provides exactly).

Collaborator modules (`rbush`, `@turf/helpers`, `@turf/flatten`,
`./turf-meta`) are not part of the analysed sources; they are modelled from
the specification's stated contracts, marked `Modelled from the spec:` below.

Stateful behaviour (debug mode mutating the input features' properties in
place) is modelled by explicit state passing: `lineIntersect` returns the
result list together with the two inputs as they stand after the call.
-/

namespace Turf

/-- A 2-D coordinate `[x, y]`. -/
abbrev Point := ℚ × ℚ

/-- The two fatal usage errors of the pipeline (thrown via `throw new Error`
in the source: `<lineTree> geometry must be a LineString` and
`<intersects> lineN must only contain 2 coordinates`). -/
inductive Err where
  | invalidGeometryType
  | invalidSegmentLength
deriving DecidableEq, Repr

/-- Feature properties: the source only ever touches the keys `stroke` and
`stroke-width`, so those are the observable part of a properties object. -/
structure FeatProps where
  stroke : Option String := none
  strokeWidth : Option ℚ := none
deriving DecidableEq, Repr

/-- A leaf geometry value: `LineString`, `MultiLineString`, or any other
GeoJSON geometry type (named by its type tag, only compared for type). -/
inductive Geometry where
  | lineString (coords : List Point)
  | multiLineString (parts : List (List Point))
  | other (typeName : String)
deriving DecidableEq, Repr

/-- A GeoJSON Feature: a geometry plus a properties object. -/
structure Feature where
  props : FeatProps
  geom : Geometry
deriving DecidableEq, Repr

/-- An input to `lineIntersect`: a single Feature or a FeatureCollection. -/
inductive Input where
  | feature (f : Feature)
  | collection (fs : List Feature)
deriving DecidableEq, Repr

/-- Modelled from the spec: `featureEach` of `./turf-meta` (absent from the
sources) — "given a Feature or Collection, produce each contained Feature in
original order". -/
def featuresOf : Input → List Feature
  | .feature f => [f]
  | .collection fs => fs

/-- `intersects(line1, line2)` from the source: the parametric line
intersection test on two 2-coordinate segments.  A segment whose coordinate
list does not have exactly two points throws
`<intersects> lineN must only contain 2 coordinates`. -/
def intersects (line1 line2 : List Point) : Except Err (Option Point) :=
  match line1, line2 with
  | [(x1, y1), (x2, y2)], [(x3, y3), (x4, y4)] =>
    let denom := ((y4 - y3) * (x2 - x1)) - ((x4 - x3) * (y2 - y1))
    let numeA := ((x4 - x3) * (y1 - y3)) - ((y4 - y3) * (x1 - x3))
    let numeB := ((x2 - x1) * (y1 - y3)) - ((y2 - y1) * (x1 - x3))
    if denom = 0 then
      Except.ok none
    else
      let uA := numeA / denom
      let uB := numeB / denom
      if 0 ≤ uA ∧ uA ≤ 1 ∧ 0 ≤ uB ∧ uB ≤ 1 then
        Except.ok (some (x1 + (uA * (x2 - x1)), y1 + (uA * (y2 - y1))))
      else
        Except.ok none
  | _, _ => Except.error Err.invalidSegmentLength

/-- One entry loaded into the RBush tree: the segment's axis-aligned
bounding box, the coordinate index, and the 2-point segment itself. -/
structure IndexEntry where
  minX : ℚ
  minY : ℚ
  maxX : ℚ
  maxY : ℚ
  index : ℕ
  lineSegment : List Point
deriving DecidableEq, Repr

/-- The entry built for one consecutive coordinate pair inside
`coordReduce`'s callback in `lineTree`:
`minX = (previous[0] < current[0]) ? previous[0] : current[0]`, etc. -/
def mkEntry (previous current : Point) (index : ℕ) : IndexEntry :=
  { minX := if previous.1 < current.1 then previous.1 else current.1
    minY := if previous.2 < current.2 then previous.2 else current.2
    maxX := if previous.1 > current.1 then previous.1 else current.1
    maxY := if previous.2 > current.2 then previous.2 else current.2
    index := index
    lineSegment := [previous, current] }

/-- Modelled from the spec: `coordReduce` of `./turf-meta` (absent from the
sources) folds over consecutive coordinate pairs, the first coordinate seeding
`previous`; `lineTree`'s callback pushes one `IndexEntry` per pair. -/
def segmentEntriesFrom : Point → ℕ → List Point → List IndexEntry
  | _, _, [] => []
  | previous, i, current :: rest =>
    mkEntry previous current i :: segmentEntriesFrom current (i + 1) rest

/-- All `IndexEntry` records produced for one LineString's coordinates. -/
def segmentEntries : List Point → List IndexEntry
  | [] => []
  | c0 :: rest => segmentEntriesFrom c0 1 rest

/-- Modelled from the spec: `@turf/flatten` on a MultiLineString Feature —
"produce the equivalent Collection of single-part LineString Features"; a
non-MultiLineString feature passes through `lineTree`'s outer loop unchanged. -/
def flattenFeature (f : Feature) : List Feature :=
  match f.geom with
  | .multiLineString parts =>
    parts.map (fun coords => { props := f.props, geom := .lineString coords })
  | _ => [f]

/-- The leaf features `lineTree` iterates: each feature of the input, with
MultiLineStrings flattened into their parts. -/
def leafFeatures (line : Input) : List Feature :=
  (featuresOf line).flatMap flattenFeature

/-- The body of `lineTree`'s inner `featureEach` callback: reject non
LineString leaves, otherwise extract the segment entries. -/
def leafEntries (feature : Feature) : Except Err (List IndexEntry) :=
  match feature.geom with
  | .lineString coords => Except.ok (segmentEntries coords)
  | _ => Except.error Err.invalidGeometryType

/-- `lineTree(line)` from the source: flatten MultiLineStrings, require every
leaf to be a LineString, and bulk-load one `IndexEntry` per consecutive
coordinate pair.  The RBush tree is modelled by its loaded entry list. -/
def lineTree (line : Input) : Except Err (List IndexEntry) := do
  let segLists ← (leafFeatures line).mapM leafEntries
  pure segLists.flatten

/-- Modelled from the spec: RBush's boundary-inclusive box-overlap test —
"overlap is true when `queryMinX <= entryMaxX && queryMaxX >= entryMinX &&
queryMinY <= entryMaxY && queryMaxY >= entryMinY`". -/
def boxOverlap (query entry : IndexEntry) : Bool :=
  query.minX ≤ entry.maxX ∧ query.maxX ≥ entry.minX ∧
    query.minY ≤ entry.maxY ∧ query.maxY ≥ entry.minY

/-- Modelled from the spec: `tree.search(box)` — "for a query BoundingBox,
return every stored entry whose BoundingBox overlaps it". -/
def search (tree : List IndexEntry) (query : IndexEntry) : List IndexEntry :=
  tree.filter (fun entry => boxOverlap query entry)

/-- The candidate pairs enumerated by the nested loops of `lineIntersect`:
each entry of tree1 paired with each of its search hits in tree2. -/
def candidates (tree1 tree2 : List IndexEntry) : List (IndexEntry × IndexEntry) :=
  tree1.flatMap (fun index1 => (search tree2 index1).map (fun index2 => (index1, index2)))

/-- Runs `intersects` over candidate pairs in order, keeping emitted points
(`if (point) results.push(point)`), propagating any thrown error. -/
def runPairs (pairs : List (IndexEntry × IndexEntry)) : Except Err (List Point) := do
  let res ← pairs.mapM (fun pair => intersects pair.1.lineSegment pair.2.lineSegment)
  pure (res.filterMap id)

/-- One record of the output FeatureCollection: an intersection Point, a
bounding-box Polygon (debug), or an echoed input Feature (debug). -/
inductive OutItem where
  | pt (p : Point)
  | poly (minX minY maxX maxY : ℚ)
  | feat (f : Feature)
deriving DecidableEq, Repr

/-- Modelled from the spec: `bboxPolygon` — "given a BoundingBox, produce a
four-cornered Polygon Feature"; the polygon record carries its box. -/
def createPolygonsFromTree (tree : List IndexEntry) : List OutItem :=
  tree.map (fun item => OutItem.poly item.minX item.minY item.maxX item.maxY)

/-- Debug mode's in-place mutation of one feature:
`feature.properties['stroke'] = color; feature.properties['stroke-width'] = 6`. -/
def styleFeature (color : String) (f : Feature) : Feature :=
  { f with props := { f.props with stroke := some color, strokeWidth := some 6 } }

/-- Debug mode's mutation applied to every feature of one input. -/
def styleInput (color : String) : Input → Input
  | .feature f => .feature (styleFeature color f)
  | .collection fs => .collection (fs.map (styleFeature color))

/-- `lineIntersect(line1, line2, debug)` from the source, in state-passing
form: the returned triple is (output records, line1 after the call, line2
after the call) — debug mode mutates the inputs' stroke properties. -/
def lineIntersect (line1 line2 : Input) (debug : Bool) :
    Except Err (List OutItem × Input × Input) := do
  let tree1 ← lineTree line1
  let tree2 ← lineTree line2
  let points ← runPairs (candidates tree1 tree2)
  let results := points.map OutItem.pt
  if debug then
    let line1s := styleInput "#f00" line1
    let line2s := styleInput "#00f" line2
    let results := results ++ createPolygonsFromTree tree1 ++ createPolygonsFromTree tree2
      ++ (featuresOf line1s).map OutItem.feat ++ (featuresOf line2s).map OutItem.feat
    pure (results, line1s, line2s)
  else
    pure (results, line1, line2)

/-- The denominator of the parametric intersection formula, as in the
source: `denom = ((y4 - y3) * (x2 - x1)) - ((x4 - x3) * (y2 - y1))`. -/
def denom (x1 y1 x2 y2 x3 y3 x4 y4 : ℚ) : ℚ :=
  ((y4 - y3) * (x2 - x1)) - ((x4 - x3) * (y2 - y1))

/-- `numeA = ((x4 - x3) * (y1 - y3)) - ((y4 - y3) * (x1 - x3))`. -/
def numeA (x1 y1 x2 y2 x3 y3 x4 y4 : ℚ) : ℚ :=
  ((x4 - x3) * (y1 - y3)) - ((y4 - y3) * (x1 - x3))

/-- `numeB = ((x2 - x1) * (y1 - y3)) - ((y2 - y1) * (x1 - x3))`. -/
def numeB (x1 y1 x2 y2 x3 y3 x4 y4 : ℚ) : ℚ :=
  ((x2 - x1) * (y1 - y3)) - ((y2 - y1) * (x1 - x3))

/-- Whether a geometry value carries the `LineString` type tag. -/
def isLineString : Geometry → Bool
  | .lineString _ => true
  | _ => false

/-- An input is invalid when, after flattening, some leaf feature's geometry
is not a LineString. -/
def hasInvalidLeaf (line : Input) : Prop :=
  ∃ f ∈ leafFeatures line, isLineString f.geom = false

/-- The naive all-pairs double loop the broad phase refines: every entry of
tree1 against every entry of tree2, with no bounding-box filter. -/
def allPairs (tree1 tree2 : List IndexEntry) : List (IndexEntry × IndexEntry) :=
  tree1.flatMap (fun index1 => tree2.map (fun index2 => (index1, index2)))

/-- The value of a successful intersection test (on 2-point segments the
test never throws, so this is its whole behaviour). -/
def intersectsOk (c1 c2 : List Point) : Option Point :=
  match intersects c1 c2 with
  | .ok o => o
  | .error _ => none

theorem ite_lt_eq_min (a b : ℚ) : (if a < b then a else b) = min a b := by
  split_ifs with h
  · exact (min_eq_left h.le).symm
  · exact (min_eq_right (not_lt.mp h)).symm

theorem ite_gt_eq_max (a b : ℚ) : (if a > b then a else b) = max a b := by
  split_ifs with h
  · exact (max_eq_left h.le).symm
  · exact (max_eq_right (not_lt.mp h)).symm

theorem mkEntry_minX (p c : Point) (i : ℕ) : (mkEntry p c i).minX = min p.1 c.1 :=
  ite_lt_eq_min p.1 c.1

theorem mkEntry_minY (p c : Point) (i : ℕ) : (mkEntry p c i).minY = min p.2 c.2 :=
  ite_lt_eq_min p.2 c.2

theorem mkEntry_maxX (p c : Point) (i : ℕ) : (mkEntry p c i).maxX = max p.1 c.1 :=
  ite_gt_eq_max p.1 c.1

theorem mkEntry_maxY (p c : Point) (i : ℕ) : (mkEntry p c i).maxY = max p.2 c.2 :=
  ite_gt_eq_max p.2 c.2

theorem segmentEntriesFrom_length (cs : List Point) :
    ∀ (p : Point) (i : ℕ), (segmentEntriesFrom p i cs).length = cs.length := by
  induction cs with
  | nil => intro p i; rfl
  | cons c rest ih => intro p i; simp [segmentEntriesFrom, ih]

theorem segmentEntries_length (coords : List Point) :
    (segmentEntries coords).length = coords.length - 1 := by
  cases coords with
  | nil => rfl
  | cons c0 rest => simp [segmentEntries, segmentEntriesFrom_length]

theorem segmentEntriesFrom_getElem? (cs : List Point) :
    ∀ (p : Point) (i j : ℕ) (prev cur : Point),
      (p :: cs)[j]? = some prev → cs[j]? = some cur →
      (segmentEntriesFrom p i cs)[j]? = some (mkEntry prev cur (i + j)) := by
  induction cs with
  | nil => intro p i j prev cur _ hc; simp at hc
  | cons c rest ih =>
    intro p i j prev cur hp hc
    cases j with
    | zero =>
      simp only [List.getElem?_cons_zero, Option.some.injEq] at hp hc
      simp [segmentEntriesFrom, hp, hc]
    | succ j =>
      simp only [List.getElem?_cons_succ] at hp hc
      have := ih c (i + 1) j prev cur hp hc
      simpa [segmentEntriesFrom, Nat.add_assoc, Nat.add_comm 1 j] using this

theorem mem_segmentEntriesFrom (cs : List Point) :
    ∀ (p : Point) (i : ℕ) (e : IndexEntry), e ∈ segmentEntriesFrom p i cs →
      ∃ q c j, e = mkEntry q c j := by
  induction cs with
  | nil => intro p i e h; simp [segmentEntriesFrom] at h
  | cons c rest ih =>
    intro p i e h
    simp only [segmentEntriesFrom, List.mem_cons] at h
    rcases h with h | h
    · exact ⟨p, c, i, h⟩
    · exact ih c (i + 1) e h

theorem mem_segmentEntries (coords : List Point) (e : IndexEntry)
    (h : e ∈ segmentEntries coords) : ∃ q c j, e = mkEntry q c j := by
  cases coords with
  | nil => simp [segmentEntries] at h
  | cons c0 rest => exact mem_segmentEntriesFrom rest c0 1 e h

/-- C4: a LineString with `N ≥ 2` vertices yields exactly `N-1` segment
entries, the `i`-th pairing `coords[i]` with `coords[i+1]` in source order,
each tagged with the coordinate-wise min/max bounding box, which always
satisfies `minX ≤ maxX` and `minY ≤ maxY`. -/
theorem c4_segment_extractor (coords : List Point) (h2 : 2 ≤ coords.length) :
    (segmentEntries coords).length = coords.length - 1 ∧
    (∀ (i : ℕ) (prev cur : Point), coords[i]? = some prev →
      coords[i + 1]? = some cur →
      (segmentEntries coords)[i]? = some (mkEntry prev cur (i + 1))) ∧
    (∀ e ∈ segmentEntries coords, ∃ p c j, e = mkEntry p c j ∧
      e.lineSegment = [p, c] ∧
      e.minX = min p.1 c.1 ∧ e.minY = min p.2 c.2 ∧
      e.maxX = max p.1 c.1 ∧ e.maxY = max p.2 c.2 ∧
      e.minX ≤ e.maxX ∧ e.minY ≤ e.maxY) := by
  refine ⟨segmentEntries_length coords, ?_, ?_⟩
  · intro i prev cur hp hc
    cases coords with
    | nil => simp at hp
    | cons c0 rest =>
      simp only [List.getElem?_cons_succ] at hc
      have := segmentEntriesFrom_getElem? rest c0 1 i prev cur hp hc
      simpa [segmentEntries, Nat.add_comm 1 i] using this
  · intro e he
    obtain ⟨p, c, j, rfl⟩ := mem_segmentEntries coords e he
    refine ⟨p, c, j, rfl, rfl, mkEntry_minX .., mkEntry_minY ..,
      mkEntry_maxX .., mkEntry_maxY .., ?_, ?_⟩
    · rw [mkEntry_minX, mkEntry_maxX]; exact min_le_max
    · rw [mkEntry_minY, mkEntry_maxY]; exact min_le_max

/-- C4 witness: the 3-vertex LineString `(0,0),(1,5),(2,3)` produces two
segment entries, the first pairing `(0,0)` with `(1,5)`. -/
theorem c4_segment_extractor_w :
    (segmentEntries [((0 : ℚ), 0), (1, 5), (2, 3)]).length = 2 ∧
    (segmentEntries [((0 : ℚ), 0), (1, 5), (2, 3)])[0]? =
      some (mkEntry (0, 0) (1, 5) 1) := by
  have h := c4_segment_extractor [((0 : ℚ), 0), (1, 5), (2, 3)] (by decide)
  exact ⟨h.1, h.2.1 0 (0, 0) (1, 5) rfl rfl⟩

/-- C1: for two 2-point segments with `denom ≠ 0`, if both `uA = numeA/denom`
and `uB = numeB/denom` lie in the closed interval `[0,1]` the test emits
exactly the point `(x1 + uA*(x2-x1), y1 + uA*(y2-y1))`, and if either
parameter lies outside `[0,1]` it emits no point (and no error). -/
theorem c1_exact_intersection (x1 y1 x2 y2 x3 y3 x4 y4 uA uB : ℚ)
    (hd : denom x1 y1 x2 y2 x3 y3 x4 y4 ≠ 0)
    (hA : uA = numeA x1 y1 x2 y2 x3 y3 x4 y4 / denom x1 y1 x2 y2 x3 y3 x4 y4)
    (hB : uB = numeB x1 y1 x2 y2 x3 y3 x4 y4 / denom x1 y1 x2 y2 x3 y3 x4 y4) :
    ((0 ≤ uA ∧ uA ≤ 1 ∧ 0 ≤ uB ∧ uB ≤ 1) →
      intersects [(x1, y1), (x2, y2)] [(x3, y3), (x4, y4)] =
        Except.ok (some (x1 + (uA * (x2 - x1)), y1 + (uA * (y2 - y1))))) ∧
    (¬ (0 ≤ uA ∧ uA ≤ 1 ∧ 0 ≤ uB ∧ uB ≤ 1) →
      intersects [(x1, y1), (x2, y2)] [(x3, y3), (x4, y4)] = Except.ok none) := by
  simp only [denom] at hd
  subst hA hB
  simp only [denom, numeA, numeB]
  constructor
  · intro h
    simp only [intersects, if_neg hd, if_pos h]
  · intro h
    simp only [intersects, if_neg hd, if_neg h]

/-- C1 witness: the crossing diagonals `(0,0)-(2,2)` and `(0,2)-(2,0)`
(with `uA = uB = 1/2`) intersect at `(1,1)`. -/
theorem c1_exact_intersection_w :
    intersects [((0 : ℚ), 0), (2, 2)] [((0 : ℚ), 2), (2, 0)] =
      Except.ok (some (1, 1)) := by
  have h := (c1_exact_intersection 0 0 2 2 0 2 2 0 (1/2) (1/2)
    (by norm_num [denom]) (by norm_num [denom, numeA])
    (by norm_num [denom, numeB])).1 (by norm_num)
  rw [h]
  norm_num

/-- C3: a zero-length segment forces `denom = 0`, and whenever `denom = 0`
(parallel or collinear segments included) the test emits no point and
raises no error. -/
theorem c3_denom_zero_no_point (x1 y1 x2 y2 x3 y3 x4 y4 : ℚ) :
    (((x2, y2) = (x1, y1) ∨ (x4, y4) = (x3, y3)) →
      denom x1 y1 x2 y2 x3 y3 x4 y4 = 0) ∧
    (denom x1 y1 x2 y2 x3 y3 x4 y4 = 0 →
      intersects [(x1, y1), (x2, y2)] [(x3, y3), (x4, y4)] = Except.ok none) := by
  constructor
  · rintro (h | h) <;>
      [obtain ⟨h1, h2⟩ := Prod.mk.injEq .. ▸ h;
       obtain ⟨h1, h2⟩ := Prod.mk.injEq .. ▸ h] <;>
      simp [denom, h1, h2]
  · intro hd
    simp only [denom] at hd
    simp only [intersects, if_pos hd]

/-- C3 witness: the collinear overlapping segments `(0,0)-(2,0)` and
`(1,0)-(3,0)` have `denom = 0` and yield no intersection point. -/
theorem c3_denom_zero_no_point_w :
    intersects [((0 : ℚ), 0), (2, 0)] [((1 : ℚ), 0), (3, 0)] = Except.ok none :=
  (c3_denom_zero_no_point 0 0 2 0 1 0 3 0).2 (by norm_num [denom])

theorem exceptMapM'_ok_iff {ε α β : Type} (f : α → Except ε β) :
    ∀ (xs : List α) (ys : List β),
      xs.mapM' f = Except.ok ys ↔
        List.Forall₂ (fun x y => f x = Except.ok y) xs ys := by
  intro xs
  induction xs with
  | nil =>
    intro ys
    constructor
    · intro h
      simp only [List.mapM'_nil, pure, Except.pure, Except.ok.injEq] at h
      subst h; exact List.Forall₂.nil
    · rintro ⟨⟩
      rfl
  | cons a l ih =>
    intro ys
    constructor
    · intro h
      cases hfa : f a with
      | error e => simp [List.mapM'_cons, hfa, Bind.bind, Except.bind] at h
      | ok b =>
        cases hbs : l.mapM' f with
        | error e => simp [List.mapM'_cons, hfa, hbs, Bind.bind, Except.bind] at h
        | ok bs =>
          simp only [List.mapM'_cons, hfa, hbs, Bind.bind, Except.bind, pure,
            Except.pure, Except.ok.injEq] at h
          subst h
          exact List.Forall₂.cons hfa ((ih bs).mp hbs)
    · intro h
      cases h with
      | cons hfa htail =>
        simp [List.mapM'_cons, hfa, Bind.bind, Except.bind, (ih _).mpr htail,
          pure, Except.pure]

theorem exceptMapM_ok_iff {ε α β : Type} (f : α → Except ε β)
    (xs : List α) (ys : List β) :
    xs.mapM f = Except.ok ys ↔
      List.Forall₂ (fun x y => f x = Except.ok y) xs ys := by
  rw [← List.mapM'_eq_mapM]
  exact exceptMapM'_ok_iff f xs ys

theorem exceptMapM_error {ε α β : Type} (f : α → Except ε β) :
    ∀ (xs : List α) (e : ε), xs.mapM f = Except.error e →
      ∃ x ∈ xs, f x = Except.error e := by
  intro xs
  rw [← List.mapM'_eq_mapM]
  induction xs with
  | nil =>
    intro e h
    simp [pure, Except.pure] at h
  | cons a l ih =>
    intro e h
    cases hfa : f a with
    | error e1 =>
      simp only [List.mapM'_cons, hfa, Bind.bind, Except.bind,
        Except.error.injEq] at h
      exact ⟨a, List.mem_cons_self .., h ▸ hfa⟩
    | ok b =>
      cases hbs : l.mapM' f with
      | error e1 =>
        simp only [List.mapM'_cons, hfa, hbs, Bind.bind, Except.bind,
          Except.error.injEq] at h
        obtain ⟨x, hx, hfx⟩ := ih e1 hbs
        exact ⟨x, List.mem_cons_of_mem a hx, h ▸ hfx⟩
      | ok bs =>
        simp [List.mapM'_cons, hfa, hbs, Bind.bind, Except.bind, pure,
          Except.pure] at h

theorem exceptMapM_ok_of_map {ε α β : Type} (f : α → Except ε β) (g : α → β)
    (xs : List α) (h : ∀ x ∈ xs, f x = Except.ok (g x)) :
    xs.mapM f = Except.ok (xs.map g) := by
  rw [exceptMapM_ok_iff]
  induction xs with
  | nil => exact List.Forall₂.nil
  | cons a l ih =>
    exact List.Forall₂.cons (h a (List.mem_cons_self ..))
      (ih (fun x hx => h x (List.mem_cons_of_mem a hx)))

theorem forall₂_mem_left {α β : Type} {R : α → β → Prop} :
    ∀ {xs : List α} {ys : List β}, List.Forall₂ R xs ys →
      ∀ x ∈ xs, ∃ y ∈ ys, R x y := by
  intro xs ys h
  induction h with
  | nil => intro x hx; simp at hx
  | cons hr _ ih =>
    intro x hx
    rcases List.mem_cons.mp hx with rfl | hx
    · exact ⟨_, List.mem_cons_self .., hr⟩
    · obtain ⟨y, hy, hxy⟩ := ih x hx
      exact ⟨y, List.mem_cons_of_mem _ hy, hxy⟩

theorem forall₂_mem_right {α β : Type} {R : α → β → Prop} :
    ∀ {xs : List α} {ys : List β}, List.Forall₂ R xs ys →
      ∀ y ∈ ys, ∃ x ∈ xs, R x y := by
  intro xs ys h
  induction h with
  | nil => intro y hy; simp at hy
  | cons hr _ ih =>
    intro y hy
    rcases List.mem_cons.mp hy with rfl | hy
    · exact ⟨_, List.mem_cons_self .., hr⟩
    · obtain ⟨x, hx, hxy⟩ := ih y hy
      exact ⟨x, List.mem_cons_of_mem _ hx, hxy⟩

theorem leafEntries_error_of_bad (f : Feature) (hf : isLineString f.geom = false) :
    leafEntries f = Except.error Err.invalidGeometryType := by
  cases hg : f.geom <;> simp [leafEntries, isLineString, hg] at hf ⊢

theorem leafEntries_error_eq (f : Feature) (e : Err)
    (h : leafEntries f = Except.error e) : e = Err.invalidGeometryType := by
  cases hg : f.geom <;> simp [leafEntries, hg] at h <;> exact h.symm

theorem leafEntries_ok_inv (f : Feature) (l : List IndexEntry)
    (h : leafEntries f = Except.ok l) :
    ∃ coords, f.geom = Geometry.lineString coords ∧ l = segmentEntries coords := by
  cases hg : f.geom with
  | lineString coords =>
    simp only [leafEntries, hg, Except.ok.injEq] at h
    exact ⟨coords, rfl, h.symm⟩
  | multiLineString parts => simp [leafEntries, hg] at h
  | other t => simp [leafEntries, hg] at h

theorem lineTree_error_of_invalid (line : Input) (h : hasInvalidLeaf line) :
    lineTree line = Except.error Err.invalidGeometryType := by
  obtain ⟨f, hf, hbad⟩ := h
  cases hm : (leafFeatures line).mapM leafEntries with
  | ok ys =>
    obtain ⟨y, _, hfy⟩ :=
      forall₂_mem_left ((exceptMapM_ok_iff leafEntries _ ys).mp hm) f hf
    rw [leafEntries_error_of_bad f hbad] at hfy
    exact absurd hfy (by simp)
  | error e =>
    obtain ⟨x, _, hfx⟩ := exceptMapM_error leafEntries _ e hm
    have := leafEntries_error_eq x e hfx
    subst this
    simp only [lineTree]
    rw [hm]
    rfl

theorem lineTree_error_eq (line : Input) (e : Err)
    (h : lineTree line = Except.error e) : e = Err.invalidGeometryType := by
  simp only [lineTree] at h
  cases hm : (leafFeatures line).mapM leafEntries with
  | ok ys =>
    rw [hm] at h
    simp [Bind.bind, Except.bind, pure, Except.pure] at h
  | error e1 =>
    rw [hm] at h
    simp only [Bind.bind, Except.bind, Except.error.injEq] at h
    obtain ⟨x, _, hfx⟩ := exceptMapM_error leafEntries _ e1 hm
    exact h ▸ leafEntries_error_eq x e1 hfx

theorem lineTree_ok_good (line : Input) (t : List IndexEntry)
    (h : lineTree line = Except.ok t) :
    ∀ e ∈ t, ∃ p c j, e = mkEntry p c j := by
  intro e he
  simp only [lineTree] at h
  cases hm : (leafFeatures line).mapM leafEntries with
  | error e1 =>
    rw [hm] at h
    simp [Bind.bind, Except.bind] at h
  | ok segLists =>
    rw [hm] at h
    simp only [Bind.bind, Except.bind, pure, Except.pure, Except.ok.injEq] at h
    subst h
    obtain ⟨l, hl, hel⟩ := List.mem_flatten.mp he
    obtain ⟨f, _, hfl⟩ :=
      forall₂_mem_right ((exceptMapM_ok_iff leafEntries _ segLists).mp hm) l hl
    obtain ⟨coords, _, rfl⟩ := leafEntries_ok_inv f l hfl
    exact mem_segmentEntries coords e hel

/-- C5: lineIntersect expands a MultiLineString Feature into its parts and
processes each independently: the tree built for the MultiLineString is
exactly the concatenation of the segment entries of its parts (the operation
succeeds), and each part processed alone yields exactly its own entries. -/
theorem c5_multilinestring_flatten (pr : FeatProps) (parts : List (List Point)) :
    lineTree (Input.feature ⟨pr, Geometry.multiLineString parts⟩) =
      Except.ok (parts.flatMap segmentEntries) ∧
    ∀ coords ∈ parts,
      lineTree (Input.feature ⟨pr, Geometry.lineString coords⟩) =
        Except.ok (segmentEntries coords) := by
  constructor
  · have hmap : (parts.map
        (fun coords => ({ props := pr, geom := .lineString coords } : Feature))).mapM
          leafEntries = Except.ok ((parts.map
            (fun coords => ({ props := pr, geom := .lineString coords } : Feature))).map
              (fun f => match f.geom with
                | .lineString coords => segmentEntries coords
                | _ => [])) :=
      exceptMapM_ok_of_map _ _ _ (by
        intro x hx
        obtain ⟨coords, _, rfl⟩ := List.mem_map.mp hx
        rfl)
    simp only [lineTree, leafFeatures, featuresOf, flattenFeature,
      List.flatMap_cons, List.flatMap_nil, List.append_nil, hmap,
      Bind.bind, Except.bind, pure, Except.pure, Except.ok.injEq, List.map_map]
    rw [List.flatMap_def]
    rfl
  · intro coords _
    have hm : [({ props := pr, geom := .lineString coords } : Feature)].mapM
        leafEntries = Except.ok [segmentEntries coords] := by
      have := exceptMapM_ok_of_map leafEntries
        (fun _ => segmentEntries coords)
        [({ props := pr, geom := .lineString coords } : Feature)]
        (by intro x hx; simp only [List.mem_singleton] at hx; subst hx; rfl)
      simpa using this
    have hleaf : leafFeatures
        (Input.feature ⟨pr, Geometry.lineString coords⟩) =
        [({ props := pr, geom := .lineString coords } : Feature)] := rfl
    simp only [lineTree, hleaf]
    rw [hm]
    simp [Bind.bind, Except.bind, pure, Except.pure]

/-- C5 witness: a two-part MultiLineString yields the segments of both parts
in order, and each part alone yields its own segment. -/
theorem c5_multilinestring_flatten_w :
    lineTree (Input.feature ⟨{}, Geometry.multiLineString
        [[((0 : ℚ), 0), (1, 1)], [((5 : ℚ), 5), (6, 5)]]⟩) =
      Except.ok (segmentEntries [((0 : ℚ), 0), (1, 1)] ++
        segmentEntries [((5 : ℚ), 5), (6, 5)]) ∧
    lineTree (Input.feature ⟨{}, Geometry.lineString [((0 : ℚ), 0), (1, 1)]⟩) =
      Except.ok (segmentEntries [((0 : ℚ), 0), (1, 1)]) := by
  have h := c5_multilinestring_flatten {}
    [[((0 : ℚ), 0), (1, 1)], [((5 : ℚ), 5), (6, 5)]]
  exact ⟨by simpa using h.1, h.2 [((0 : ℚ), 0), (1, 1)] (by simp)⟩

/-- C6: if after flattening some leaf feature of either input is not a
LineString, the whole operation fails with `InvalidGeometryType` and no
output collection is produced. -/
theorem c6_invalid_geometry_aborts (l1 l2 : Input) (debug : Bool)
    (h : hasInvalidLeaf l1 ∨ hasInvalidLeaf l2) :
    lineIntersect l1 l2 debug = Except.error Err.invalidGeometryType := by
  rcases h with h | h
  · have h1 := lineTree_error_of_invalid l1 h
    simp [lineIntersect, h1, Bind.bind, Except.bind]
  · cases h1 : lineTree l1 with
    | error e =>
      have := lineTree_error_eq l1 e h1
      subst this
      simp [lineIntersect, h1, Bind.bind, Except.bind]
    | ok t1 =>
      have h2 := lineTree_error_of_invalid l2 h
      simp [lineIntersect, h1, h2, Bind.bind, Except.bind]

/-- C6 witness: a Point-typed leaf in the first input aborts the operation
with `InvalidGeometryType`. -/
theorem c6_invalid_geometry_aborts_w :
    lineIntersect (Input.feature ⟨{}, Geometry.other "Point"⟩)
      (Input.feature ⟨{}, Geometry.lineString [((0 : ℚ), 0), (1, 1)]⟩) false =
      Except.error Err.invalidGeometryType :=
  c6_invalid_geometry_aborts _ _ false
    (Or.inl ⟨⟨{}, Geometry.other "Point"⟩,
      by simp [leafFeatures, featuresOf, flattenFeature], rfl⟩)

theorem intersects_two_no_error (p c q d : Point) (e : Err) :
    intersects [p, c] [q, d] ≠ Except.error e := by
  obtain ⟨x1, y1⟩ := p
  obtain ⟨x2, y2⟩ := c
  obtain ⟨x3, y3⟩ := q
  obtain ⟨x4, y4⟩ := d
  intro h
  simp only [intersects] at h
  split_ifs at h <;> simp at h

theorem exceptMapM_ok_of_no_error {ε α β : Type} (f : α → Except ε β)
    (xs : List α) (h : ∀ x ∈ xs, ∀ e, f x ≠ Except.error e) :
    ∃ ys, xs.mapM f = Except.ok ys := by
  rw [← List.mapM'_eq_mapM]
  induction xs with
  | nil => exact ⟨[], rfl⟩
  | cons a l ih =>
    cases hfa : f a with
    | error e => exact absurd hfa (h a (List.mem_cons_self ..) e)
    | ok b =>
      obtain ⟨bs, hbs⟩ := ih (fun x hx => h x (List.mem_cons_of_mem a hx))
      exact ⟨b :: bs, by
        simp [List.mapM'_cons, hfa, hbs, Bind.bind, Except.bind, pure, Except.pure]⟩

theorem mem_candidates (t1 t2 : List IndexEntry)
    (pr : IndexEntry × IndexEntry) (h : pr ∈ candidates t1 t2) :
    pr.1 ∈ t1 ∧ pr.2 ∈ t2 ∧ boxOverlap pr.1 pr.2 = true := by
  simp only [candidates, List.mem_flatMap, List.mem_map] at h
  obtain ⟨e1, he1, e2, he2, rfl⟩ := h
  obtain ⟨he2t, hov⟩ := List.mem_filter.mp he2
  exact ⟨he1, he2t, hov⟩

theorem candidates_sub (t1 t2 : List IndexEntry)
    (pr : IndexEntry × IndexEntry) :
    pr ∈ candidates t1 t2 ↔
      pr.1 ∈ t1 ∧ pr.2 ∈ t2 ∧ boxOverlap pr.1 pr.2 = true := by
  constructor
  · exact mem_candidates t1 t2 pr
  · rintro ⟨h1, h2, hov⟩
    obtain ⟨e1, e2⟩ := pr
    simp only [candidates, List.mem_flatMap, List.mem_map]
    exact ⟨e1, h1, e2, List.mem_filter.mpr ⟨h2, hov⟩, rfl⟩

theorem runPairs_ok (pairs : List (IndexEntry × IndexEntry))
    (h : ∀ pr ∈ pairs, (∃ p c j, pr.1 = mkEntry p c j) ∧
      ∃ p c j, pr.2 = mkEntry p c j) :
    ∃ pts, runPairs pairs = Except.ok pts := by
  obtain ⟨res, hres⟩ := exceptMapM_ok_of_no_error
    (fun pair => intersects pair.1.lineSegment pair.2.lineSegment) pairs (by
      intro pr hpr e
      obtain ⟨⟨p, c, j, h1⟩, ⟨q, d, k, h2⟩⟩ := h pr hpr
      simp only [h1, h2, mkEntry]
      exact intersects_two_no_error p c q d e)
  refine ⟨res.filterMap id, ?_⟩
  simp only [runPairs]
  rw [hres]
  rfl

theorem runPairs_from_trees_ok (l1 l2 : Input) (t1 t2 : List IndexEntry)
    (h1 : lineTree l1 = Except.ok t1) (h2 : lineTree l2 = Except.ok t2) :
    ∃ pts, runPairs (candidates t1 t2) = Except.ok pts := by
  apply runPairs_ok
  intro pr hpr
  obtain ⟨hm1, hm2, _⟩ := mem_candidates t1 t2 pr hpr
  exact ⟨lineTree_ok_good l1 t1 h1 pr.1 hm1, lineTree_ok_good l2 t2 h2 pr.2 hm2⟩

/-- C7: the intersection test throws `InvalidSegmentLength` exactly when one
of its segments does not have two points, and inside the `lineIntersect`
pipeline this branch is unreachable: any error the operation returns is
`InvalidGeometryType`, never `InvalidSegmentLength`. -/
theorem c7_segment_length_error :
    (∀ line1 line2 : List Point,
      intersects line1 line2 = Except.error Err.invalidSegmentLength ↔
        ¬ (line1.length = 2 ∧ line2.length = 2)) ∧
    (∀ (l1 l2 : Input) (debug : Bool) (e : Err),
      lineIntersect l1 l2 debug = Except.error e →
        e = Err.invalidGeometryType) := by
  constructor
  · intro line1 line2
    constructor
    · intro h hlen
      obtain ⟨h1, h2⟩ := hlen
      rcases line1 with _ | ⟨p, _ | ⟨c, _ | ⟨r, rs⟩⟩⟩ <;> simp at h1
      rcases line2 with _ | ⟨q, _ | ⟨d, _ | ⟨w, ws⟩⟩⟩ <;> simp at h2
      exact intersects_two_no_error p c q d Err.invalidSegmentLength h
    · intro h
      rcases line1 with _ | ⟨p, _ | ⟨c, _ | ⟨r, rs⟩⟩⟩ <;>
        rcases line2 with _ | ⟨q, _ | ⟨d, _ | ⟨w, ws⟩⟩⟩ <;>
        first
          | rfl
          | exact absurd ⟨rfl, rfl⟩ h
  · intro l1 l2 debug e h
    cases h1 : lineTree l1 with
    | error e1 =>
      simp only [lineIntersect] at h
      rw [h1] at h
      simp only [Bind.bind, Except.bind, Except.error.injEq] at h
      exact h ▸ lineTree_error_eq l1 e1 h1
    | ok t1 =>
      cases h2 : lineTree l2 with
      | error e2 =>
        simp only [lineIntersect] at h
        rw [h1, h2] at h
        simp only [Bind.bind, Except.bind, Except.error.injEq] at h
        exact h ▸ lineTree_error_eq l2 e2 h2
      | ok t2 =>
        obtain ⟨pts, hpts⟩ := runPairs_from_trees_ok l1 l2 t1 t2 h1 h2
        simp only [lineIntersect] at h
        rw [h1, h2] at h
        simp only [Bind.bind, Except.bind] at h
        rw [hpts] at h
        cases debug <;> simp [pure, Except.pure] at h

/-- C7 witness: an empty segment makes `intersects` throw
`InvalidSegmentLength`, while a bad-geometry invocation of `lineIntersect`
errors with `InvalidGeometryType`. -/
theorem c7_segment_length_error_w :
    intersects ([] : List Point) [] = Except.error Err.invalidSegmentLength ∧
    Err.invalidGeometryType = Err.invalidGeometryType := by
  refine ⟨(c7_segment_length_error.1 [] []).mpr (by simp), ?_⟩
  exact c7_segment_length_error.2
    (Input.feature ⟨{}, Geometry.other "Point"⟩)
    (Input.feature ⟨{}, Geometry.lineString [((0 : ℚ), 0), (1, 1)]⟩)
    false Err.invalidGeometryType (by rfl)

theorem param_between (a b u : ℚ) (h0 : 0 ≤ u) (h1 : u ≤ 1) :
    min a b ≤ a + u * (b - a) ∧ a + u * (b - a) ≤ max a b := by
  rcases le_total a b with hab | hab
  · rw [min_eq_left hab, max_eq_right hab]
    constructor <;> nlinarith
  · rw [min_eq_right hab, max_eq_left hab]
    constructor <;> nlinarith

theorem param_cross_x (x1 y1 x2 y2 x3 y3 x4 y4 : ℚ)
    (hd : ((y4 - y3) * (x2 - x1)) - ((x4 - x3) * (y2 - y1)) ≠ 0) :
    x1 + ((((x4 - x3) * (y1 - y3)) - ((y4 - y3) * (x1 - x3))) /
        (((y4 - y3) * (x2 - x1)) - ((x4 - x3) * (y2 - y1)))) * (x2 - x1) =
      x3 + ((((x2 - x1) * (y1 - y3)) - ((y2 - y1) * (x1 - x3))) /
        (((y4 - y3) * (x2 - x1)) - ((x4 - x3) * (y2 - y1)))) * (x4 - x3) := by
  field_simp
  ring

theorem param_cross_y (x1 y1 x2 y2 x3 y3 x4 y4 : ℚ)
    (hd : ((y4 - y3) * (x2 - x1)) - ((x4 - x3) * (y2 - y1)) ≠ 0) :
    y1 + ((((x4 - x3) * (y1 - y3)) - ((y4 - y3) * (x1 - x3))) /
        (((y4 - y3) * (x2 - x1)) - ((x4 - x3) * (y2 - y1)))) * (y2 - y1) =
      y3 + ((((x2 - x1) * (y1 - y3)) - ((y2 - y1) * (x1 - x3))) /
        (((y4 - y3) * (x2 - x1)) - ((x4 - x3) * (y2 - y1)))) * (y4 - y3) := by
  field_simp
  ring

theorem intersects_some_mem_box (p c q d pt : Point)
    (h : intersects [p, c] [q, d] = Except.ok (some pt)) :
    min p.1 c.1 ≤ pt.1 ∧ pt.1 ≤ max p.1 c.1 ∧
    min p.2 c.2 ≤ pt.2 ∧ pt.2 ≤ max p.2 c.2 ∧
    min q.1 d.1 ≤ pt.1 ∧ pt.1 ≤ max q.1 d.1 ∧
    min q.2 d.2 ≤ pt.2 ∧ pt.2 ≤ max q.2 d.2 := by
  obtain ⟨x1, y1⟩ := p
  obtain ⟨x2, y2⟩ := c
  obtain ⟨x3, y3⟩ := q
  obtain ⟨x4, y4⟩ := d
  simp only [intersects] at h
  split_ifs at h with h0 hr
  · simp at h
  · simp only [Except.ok.injEq, Option.some.injEq] at h
    subst h
    obtain ⟨hA0, hA1, hB0, hB1⟩ := hr
    refine ⟨(param_between x1 x2 _ hA0 hA1).1, (param_between x1 x2 _ hA0 hA1).2,
      (param_between y1 y2 _ hA0 hA1).1, (param_between y1 y2 _ hA0 hA1).2,
      ?_, ?_, ?_, ?_⟩
    · rw [param_cross_x x1 y1 x2 y2 x3 y3 x4 y4 h0]
      exact (param_between x3 x4 _ hB0 hB1).1
    · rw [param_cross_x x1 y1 x2 y2 x3 y3 x4 y4 h0]
      exact (param_between x3 x4 _ hB0 hB1).2
    · rw [param_cross_y x1 y1 x2 y2 x3 y3 x4 y4 h0]
      exact (param_between y3 y4 _ hB0 hB1).1
    · rw [param_cross_y x1 y1 x2 y2 x3 y3 x4 y4 h0]
      exact (param_between y3 y4 _ hB0 hB1).2
  · simp at h

theorem intersects_eq_ok_intersectsOk (p c q d : Point) :
    intersects [p, c] [q, d] = Except.ok (intersectsOk [p, c] [q, d]) := by
  cases h : intersects [p, c] [q, d] with
  | error e => exact absurd h (intersects_two_no_error p c q d e)
  | ok o => simp [intersectsOk, h]

theorem good_overlap (p c q d pt : Point) (j k : ℕ)
    (h : intersects [p, c] [q, d] = Except.ok (some pt)) :
    boxOverlap (mkEntry p c j) (mkEntry q d k) = true := by
  obtain ⟨b1, b2, b3, b4, b5, b6, b7, b8⟩ := intersects_some_mem_box p c q d pt h
  simp only [boxOverlap, mkEntry_minX, mkEntry_maxX, mkEntry_minY, mkEntry_maxY,
    ge_iff_le, decide_eq_true_eq]
  exact ⟨le_trans b1 b6, le_trans b5 b2, le_trans b3 b8, le_trans b7 b4⟩

theorem runPairs_good_eq (pairs : List (IndexEntry × IndexEntry))
    (h : ∀ pr ∈ pairs, (∃ p c j, pr.1 = mkEntry p c j) ∧
      ∃ p c j, pr.2 = mkEntry p c j) :
    runPairs pairs = Except.ok (pairs.filterMap
      (fun pr => intersectsOk pr.1.lineSegment pr.2.lineSegment)) := by
  have hm := exceptMapM_ok_of_map
    (fun pair => intersects pair.1.lineSegment pair.2.lineSegment)
    (fun pair => intersectsOk pair.1.lineSegment pair.2.lineSegment) pairs (by
      intro pr hpr
      obtain ⟨⟨p, c, j, h1⟩, ⟨q, d, k, h2⟩⟩ := h pr hpr
      simp only [h1, h2, mkEntry]
      exact intersects_eq_ok_intersectsOk p c q d)
  simp only [runPairs]
  rw [hm]
  simp [Bind.bind, Except.bind, pure, Except.pure, List.filterMap_map]

theorem mem_allPairs (t1 t2 : List IndexEntry) (pr : IndexEntry × IndexEntry) :
    pr ∈ allPairs t1 t2 ↔ pr.1 ∈ t1 ∧ pr.2 ∈ t2 := by
  obtain ⟨e1, e2⟩ := pr
  simp only [allPairs, List.mem_flatMap, List.mem_map, Prod.mk.injEq]
  constructor
  · rintro ⟨a, ha, b, hb, rfl, rfl⟩
    exact ⟨ha, hb⟩
  · rintro ⟨h1, h2⟩
    exact ⟨e1, h1, e2, h2, rfl, rfl⟩

theorem lineIntersect_runs (l1 l2 : Input) (t1 t2 : List IndexEntry)
    (pts : List Point)
    (h1 : lineTree l1 = Except.ok t1) (h2 : lineTree l2 = Except.ok t2)
    (hp : runPairs (candidates t1 t2) = Except.ok pts) :
    lineIntersect l1 l2 false = Except.ok (pts.map OutItem.pt, l1, l2) ∧
    lineIntersect l1 l2 true = Except.ok
      (pts.map OutItem.pt ++ createPolygonsFromTree t1
        ++ createPolygonsFromTree t2
        ++ (featuresOf (styleInput "#f00" l1)).map OutItem.feat
        ++ (featuresOf (styleInput "#00f" l2)).map OutItem.feat,
       styleInput "#f00" l1, styleInput "#00f" l2) := by
  constructor <;>
    simp [lineIntersect, h1, h2, hp, Bind.bind, Except.bind, pure, Except.pure]

/-- C2: given the two segment trees, the broad-phase pipeline (enumerate
tree1, query tree2 by box overlap, run the exact test) succeeds, yields the
non-debug output of `lineIntersect`, enumerates every geometrically
intersecting pair at least once, and its point set equals that of the naive
all-pairs double loop. -/
theorem c2_pipeline_equals_naive (l1 l2 : Input) (t1 t2 : List IndexEntry)
    (h1 : lineTree l1 = Except.ok t1) (h2 : lineTree l2 = Except.ok t2) :
    ∃ pts npts,
      runPairs (candidates t1 t2) = Except.ok pts ∧
      runPairs (allPairs t1 t2) = Except.ok npts ∧
      lineIntersect l1 l2 false = Except.ok (pts.map OutItem.pt, l1, l2) ∧
      (∀ pr ∈ allPairs t1 t2, ∀ p,
        intersects pr.1.lineSegment pr.2.lineSegment = Except.ok (some p) →
          pr ∈ candidates t1 t2) ∧
      (∀ p, p ∈ pts ↔ p ∈ npts) := by
  have good1 := lineTree_ok_good l1 t1 h1
  have good2 := lineTree_ok_good l2 t2 h2
  have goodC : ∀ pr ∈ candidates t1 t2,
      (∃ p c j, pr.1 = mkEntry p c j) ∧ ∃ p c j, pr.2 = mkEntry p c j := by
    intro pr hpr
    obtain ⟨m1, m2, _⟩ := mem_candidates t1 t2 pr hpr
    exact ⟨good1 pr.1 m1, good2 pr.2 m2⟩
  have goodA : ∀ pr ∈ allPairs t1 t2,
      (∃ p c j, pr.1 = mkEntry p c j) ∧ ∃ p c j, pr.2 = mkEntry p c j := by
    intro pr hpr
    obtain ⟨m1, m2⟩ := (mem_allPairs t1 t2 pr).mp hpr
    exact ⟨good1 pr.1 m1, good2 pr.2 m2⟩
  have honce : ∀ pr ∈ allPairs t1 t2, ∀ p,
      intersects pr.1.lineSegment pr.2.lineSegment = Except.ok (some p) →
        pr ∈ candidates t1 t2 := by
    intro pr hpr p hint
    obtain ⟨m1, m2⟩ := (mem_allPairs t1 t2 pr).mp hpr
    obtain ⟨⟨pa, ca, j, e1⟩, ⟨qa, da, k, e2⟩⟩ := goodA pr hpr
    refine (candidates_sub t1 t2 pr).mpr ⟨m1, m2, ?_⟩
    rw [e1, e2] at hint ⊢
    exact good_overlap pa ca qa da p j k hint
  have hc := runPairs_good_eq (candidates t1 t2) goodC
  have ha := runPairs_good_eq (allPairs t1 t2) goodA
  refine ⟨_, _, hc, ha, (lineIntersect_runs l1 l2 t1 t2 _ h1 h2 hc).1, honce, ?_⟩
  intro p
  simp only [List.mem_filterMap]
  constructor
  · rintro ⟨pr, hpr, hv⟩
    obtain ⟨m1, m2, _⟩ := mem_candidates t1 t2 pr hpr
    exact ⟨pr, (mem_allPairs t1 t2 pr).mpr ⟨m1, m2⟩, hv⟩
  · rintro ⟨pr, hpr, hv⟩
    refine ⟨pr, ?_, hv⟩
    obtain ⟨⟨pa, ca, j, e1⟩, ⟨qa, da, k, e2⟩⟩ := goodA pr hpr
    have hint : intersects pr.1.lineSegment pr.2.lineSegment =
        Except.ok (some p) := by
      rw [e1, e2]
      rw [e1, e2] at hv
      simp only [mkEntry] at hv ⊢
      rw [intersects_eq_ok_intersectsOk]
      rw [hv]
    exact honce pr hpr p hint

theorem c2_pipeline_equals_naive_w :
    ∃ pts npts,
      runPairs (candidates (segmentEntries [((0 : ℚ), 0), (2, 2)])
        (segmentEntries [((0 : ℚ), 2), (2, 0)])) = Except.ok pts ∧
      runPairs (allPairs (segmentEntries [((0 : ℚ), 0), (2, 2)])
        (segmentEntries [((0 : ℚ), 2), (2, 0)])) = Except.ok npts ∧
      (∀ p, p ∈ pts ↔ p ∈ npts) := by
  obtain ⟨pts, npts, hc, ha, _, _, hiff⟩ := c2_pipeline_equals_naive
    (Input.feature ⟨{}, Geometry.lineString [((0 : ℚ), 0), (2, 2)]⟩)
    (Input.feature ⟨{}, Geometry.lineString [((0 : ℚ), 2), (2, 0)]⟩)
    (segmentEntries [((0 : ℚ), 0), (2, 2)])
    (segmentEntries [((0 : ℚ), 2), (2, 0)]) rfl rfl
  exact ⟨pts, npts, hc, ha, hiff⟩

theorem flattenFeature_style (col : String) (f : Feature) :
    flattenFeature (styleFeature col f) = (flattenFeature f).map (styleFeature col) := by
  obtain ⟨pr, g⟩ := f
  cases g with
  | lineString coords => rfl
  | other t => rfl
  | multiLineString parts =>
    show parts.map _ = (parts.map _).map _
    rw [List.map_map]
    rfl

theorem featuresOf_style (col : String) (l : Input) :
    featuresOf (styleInput col l) = (featuresOf l).map (styleFeature col) := by
  cases l <;> rfl

theorem leafFeatures_style (col : String) (l : Input) :
    leafFeatures (styleInput col l) = (leafFeatures l).map (styleFeature col) := by
  simp only [leafFeatures, featuresOf_style, List.flatMap_map, List.map_flatMap]
  rw [show (fun x => flattenFeature (styleFeature col x)) =
    (fun x => (flattenFeature x).map (styleFeature col)) from
      funext (flattenFeature_style col)]

theorem exceptMapM_map {ε α β γ : Type} (g : α → β) (f : β → Except ε γ)
    (xs : List α) : (xs.map g).mapM f = xs.mapM (fun x => f (g x)) := by
  rw [← List.mapM'_eq_mapM, ← List.mapM'_eq_mapM]
  induction xs with
  | nil => rfl
  | cons a l ih => simp [List.mapM'_cons, ih]

theorem lineTree_style (col : String) (l : Input) :
    lineTree (styleInput col l) = lineTree l := by
  simp only [lineTree, leafFeatures_style, exceptMapM_map]
  rfl

theorem styleInput_idem (col : String) (l : Input) :
    styleInput col (styleInput col l) = styleInput col l := by
  cases l with
  | feature f => rfl
  | collection fs =>
    show Input.collection ((fs.map _).map _) = _
    rw [List.map_map]
    rfl

/-- C8: debug mode never changes which intersection points are computed or
their order — it errors exactly when the non-debug run errors, and on
success its output is the non-debug output (which consists of points only)
followed by the index-box polygons of both trees and the restyled features
of the first then the second input. -/
theorem c8_debug_frame (l1 l2 : Input) :
    (∀ e : Err, lineIntersect l1 l2 false = Except.error e ↔
      lineIntersect l1 l2 true = Except.error e) ∧
    (∀ (out : List OutItem) (l1o l2o : Input),
      lineIntersect l1 l2 false = Except.ok (out, l1o, l2o) →
      l1o = l1 ∧ l2o = l2 ∧ (∀ x ∈ out, ∃ p, x = OutItem.pt p) ∧
      ∃ t1 t2, lineTree l1 = Except.ok t1 ∧ lineTree l2 = Except.ok t2 ∧
        lineIntersect l1 l2 true = Except.ok
          (out ++ createPolygonsFromTree t1 ++ createPolygonsFromTree t2
            ++ (featuresOf (styleInput "#f00" l1)).map OutItem.feat
            ++ (featuresOf (styleInput "#00f" l2)).map OutItem.feat,
           styleInput "#f00" l1, styleInput "#00f" l2)) := by
  constructor
  · intro e
    cases h1 : lineTree l1 with
    | error e1 => simp [lineIntersect, h1, Bind.bind, Except.bind]
    | ok t1 =>
      cases h2 : lineTree l2 with
      | error e2 => simp [lineIntersect, h1, h2, Bind.bind, Except.bind]
      | ok t2 =>
        obtain ⟨pts, hp⟩ := runPairs_from_trees_ok l1 l2 t1 t2 h1 h2
        simp [lineIntersect, h1, h2, hp, Bind.bind, Except.bind, pure, Except.pure]
  · intro out l1o l2o h
    cases h1 : lineTree l1 with
    | error e1 => simp [lineIntersect, h1, Bind.bind, Except.bind] at h
    | ok t1 =>
      cases h2 : lineTree l2 with
      | error e2 => simp [lineIntersect, h1, h2, Bind.bind, Except.bind] at h
      | ok t2 =>
        obtain ⟨pts, hp⟩ := runPairs_from_trees_ok l1 l2 t1 t2 h1 h2
        have hr := lineIntersect_runs l1 l2 t1 t2 pts h1 h2 hp
        have heq := hr.1.symm.trans h
        simp only [Except.ok.injEq, Prod.mk.injEq] at heq
        obtain ⟨hout, hl1, hl2⟩ := heq
        subst hout hl1 hl2
        refine ⟨rfl, rfl, ?_, t1, t2, rfl, rfl, hr.2⟩
        intro x hx
        obtain ⟨p, _, rfl⟩ := List.mem_map.mp hx
        exact ⟨p, rfl⟩

theorem c8_debug_frame_w :
    ∃ t1 t2,
      lineTree (Input.feature ⟨{}, Geometry.lineString [((0 : ℚ), 0)]⟩) =
        Except.ok t1 ∧
      lineTree (Input.feature ⟨{}, Geometry.lineString [((1 : ℚ), 1)]⟩) =
        Except.ok t2 ∧
      lineIntersect
          (Input.feature ⟨{}, Geometry.lineString [((0 : ℚ), 0)]⟩)
          (Input.feature ⟨{}, Geometry.lineString [((1 : ℚ), 1)]⟩) true =
        Except.ok
          (([] : List OutItem) ++ createPolygonsFromTree t1
            ++ createPolygonsFromTree t2
            ++ (featuresOf (styleInput "#f00"
              (Input.feature ⟨{}, Geometry.lineString [((0 : ℚ), 0)]⟩))).map
                OutItem.feat
            ++ (featuresOf (styleInput "#00f"
              (Input.feature ⟨{}, Geometry.lineString [((1 : ℚ), 1)]⟩))).map
                OutItem.feat,
           styleInput "#f00"
             (Input.feature ⟨{}, Geometry.lineString [((0 : ℚ), 0)]⟩),
           styleInput "#00f"
             (Input.feature ⟨{}, Geometry.lineString [((1 : ℚ), 1)]⟩)) := by
  obtain ⟨_, _, _, t1, t2, h1, h2, hd⟩ := (c8_debug_frame
    (Input.feature ⟨{}, Geometry.lineString [((0 : ℚ), 0)]⟩)
    (Input.feature ⟨{}, Geometry.lineString [((1 : ℚ), 1)]⟩)).2
    [] (Input.feature ⟨{}, Geometry.lineString [((0 : ℚ), 0)]⟩)
    (Input.feature ⟨{}, Geometry.lineString [((1 : ℚ), 1)]⟩) rfl
  exact ⟨t1, t2, h1, h2, hd⟩

/-- C9: the operation is deterministic and stateless across calls: any
successful call returns the same result if repeated, and running it again on
the state it left behind (the inputs as they stand after the call, which
debug mode may have restyled) returns the identical triple — no hidden
state carries over. -/
theorem c9_idempotent (l1 l2 : Input) (debug : Bool)
    (r : List OutItem × Input × Input)
    (h : lineIntersect l1 l2 debug = Except.ok r) :
    lineIntersect l1 l2 debug = Except.ok r ∧
    lineIntersect r.2.1 r.2.2 debug = Except.ok r := by
  refine ⟨h, ?_⟩
  cases h1 : lineTree l1 with
  | error e1 => simp [lineIntersect, h1, Bind.bind, Except.bind] at h
  | ok t1 =>
    cases h2 : lineTree l2 with
    | error e2 => simp [lineIntersect, h1, h2, Bind.bind, Except.bind] at h
    | ok t2 =>
      obtain ⟨pts, hp⟩ := runPairs_from_trees_ok l1 l2 t1 t2 h1 h2
      have hr := lineIntersect_runs l1 l2 t1 t2 pts h1 h2 hp
      cases debug with
      | false =>
        have heq := hr.1.symm.trans h
        simp only [Except.ok.injEq] at heq
        subst heq
        exact hr.1
      | true =>
        have heq := hr.2.symm.trans h
        simp only [Except.ok.injEq] at heq
        subst heq
        have h1s : lineTree (styleInput "#f00" l1) = Except.ok t1 :=
          (lineTree_style "#f00" l1).trans h1
        have h2s : lineTree (styleInput "#00f" l2) = Except.ok t2 :=
          (lineTree_style "#00f" l2).trans h2
        have hrs := (lineIntersect_runs (styleInput "#f00" l1)
          (styleInput "#00f" l2) t1 t2 pts h1s h2s hp).2
        rw [styleInput_idem, styleInput_idem] at hrs
        exact hrs

theorem c9_idempotent_w :
    lineIntersect
        (styleInput "#f00" (Input.feature ⟨{}, Geometry.lineString [((0 : ℚ), 0)]⟩))
        (styleInput "#00f" (Input.feature ⟨{}, Geometry.lineString [((1 : ℚ), 1)]⟩))
        true =
      Except.ok
        ([OutItem.feat (styleFeature "#f00" ⟨{}, Geometry.lineString [((0 : ℚ), 0)]⟩),
          OutItem.feat (styleFeature "#00f" ⟨{}, Geometry.lineString [((1 : ℚ), 1)]⟩)],
         styleInput "#f00" (Input.feature ⟨{}, Geometry.lineString [((0 : ℚ), 0)]⟩),
         styleInput "#00f" (Input.feature ⟨{}, Geometry.lineString [((1 : ℚ), 1)]⟩)) :=
  (c9_idempotent
    (Input.feature ⟨{}, Geometry.lineString [((0 : ℚ), 0)]⟩)
    (Input.feature ⟨{}, Geometry.lineString [((1 : ℚ), 1)]⟩) true
    ([OutItem.feat (styleFeature "#f00" ⟨{}, Geometry.lineString [((0 : ℚ), 0)]⟩),
      OutItem.feat (styleFeature "#00f" ⟨{}, Geometry.lineString [((1 : ℚ), 1)]⟩)],
     styleInput "#f00" (Input.feature ⟨{}, Geometry.lineString [((0 : ℚ), 0)]⟩),
     styleInput "#00f" (Input.feature ⟨{}, Geometry.lineString [((1 : ℚ), 1)]⟩))
    rfl).2

/-- C10: with the debug flag set, the call restyles both inputs in place —
every feature of the post-call inputs carries `stroke`/`stroke-width` —
and the returned collection ends with exactly those restyled features, so a
caller whose input was not already styled sees its input modified. -/
theorem c10_debug_mutation (l1 l2 : Input) (out : List OutItem)
    (l1a l2a : Input)
    (h : lineIntersect l1 l2 true = Except.ok (out, l1a, l2a)) :
    l1a = styleInput "#f00" l1 ∧ l2a = styleInput "#00f" l2 ∧
    (∀ f ∈ featuresOf l1a,
      f.props.stroke = some "#f00" ∧ f.props.strokeWidth = some 6) ∧
    (∀ f ∈ featuresOf l2a,
      f.props.stroke = some "#00f" ∧ f.props.strokeWidth = some 6) ∧
    (∃ pre, out = pre ++ (featuresOf l1a).map OutItem.feat
      ++ (featuresOf l2a).map OutItem.feat) ∧
    ((∃ f ∈ featuresOf l1,
        f.props ≠ { stroke := some "#f00", strokeWidth := some 6 }) →
      l1a ≠ l1) := by
  cases h1 : lineTree l1 with
  | error e1 => simp [lineIntersect, h1, Bind.bind, Except.bind] at h
  | ok t1 =>
    cases h2 : lineTree l2 with
    | error e2 => simp [lineIntersect, h1, h2, Bind.bind, Except.bind] at h
    | ok t2 =>
      obtain ⟨pts, hp⟩ := runPairs_from_trees_ok l1 l2 t1 t2 h1 h2
      have hr := lineIntersect_runs l1 l2 t1 t2 pts h1 h2 hp
      have heq := hr.2.symm.trans h
      simp only [Except.ok.injEq, Prod.mk.injEq] at heq
      obtain ⟨hout, hl1, hl2⟩ := heq
      subst hout hl1 hl2
      refine ⟨rfl, rfl, ?_, ?_, ⟨_, rfl⟩, ?_⟩
      · intro f hf
        rw [featuresOf_style] at hf
        obtain ⟨g, _, rfl⟩ := List.mem_map.mp hf
        exact ⟨rfl, rfl⟩
      · intro f hf
        rw [featuresOf_style] at hf
        obtain ⟨g, _, rfl⟩ := List.mem_map.mp hf
        exact ⟨rfl, rfl⟩
      · rintro ⟨f, hf, hne⟩ heq'
        have hfeat := congrArg featuresOf heq'
        rw [featuresOf_style] at hfeat
        obtain ⟨i, hi, hget⟩ := List.mem_iff_getElem.mp hf
        have hgi := congrArg (fun l => l[i]?) hfeat
        simp only [List.getElem?_map, List.getElem?_eq_getElem hi,
          Option.map_some'] at hgi
        rw [hget] at hgi
        have hsf := Option.some_inj.mp hgi
        have hprops := congrArg Feature.props hsf
        exact hne hprops.symm

theorem c10_debug_mutation_w :
    styleInput "#f00" (Input.feature ⟨{}, Geometry.lineString [((0 : ℚ), 0)]⟩) ≠
      Input.feature ⟨{}, Geometry.lineString [((0 : ℚ), 0)]⟩ := by
  have hc := c10_debug_mutation
    (Input.feature ⟨{}, Geometry.lineString [((0 : ℚ), 0)]⟩)
    (Input.feature ⟨{}, Geometry.lineString [((1 : ℚ), 1)]⟩)
    [OutItem.feat (styleFeature "#f00" ⟨{}, Geometry.lineString [((0 : ℚ), 0)]⟩),
     OutItem.feat (styleFeature "#00f" ⟨{}, Geometry.lineString [((1 : ℚ), 1)]⟩)]
    (styleInput "#f00" (Input.feature ⟨{}, Geometry.lineString [((0 : ℚ), 0)]⟩))
    (styleInput "#00f" (Input.feature ⟨{}, Geometry.lineString [((1 : ℚ), 1)]⟩))
    rfl
  exact hc.2.2.2.2.2 ⟨⟨{}, Geometry.lineString [((0 : ℚ), 0)]⟩,
    List.mem_singleton.mpr rfl, by decide⟩

end Turf
